import Mathlib

/-!
Verification of the fire_n_go worker-pool repository.

The development shallowly embeds the program:

-- logger.hpp: the severity levels, the stream chosen per level, and the
   conditional emission of a log line (a Debug call is dropped when debug
   logging is disabled at build time).
-- fire_n_go.hpp / fire_n_go_impl.inl: the dispatcher fire_and_forget and
   the wrapped unit it builds around a task (start/finished logging and
   total exception containment), plus ThreadPool::enqueue.
-- fire_n_go.cpp (worker_loop, start, destructor, ThreadPoolManager):
   the pool itself is embedded as a small-step transition system.  A state
   carries the FIFO task queue, the monotone stop flag of the stop_source,
   the current holder of the queue mutex, the control point of every worker
   inside worker_loop, the control point of a submitting client inside
   enqueue, and two history variables (the sequence of task ids ever pushed
   and the sequence of task ids ever popped for execution).  Each step
   constructor corresponds to one program point of the C++ code; steps that
   execute while holding the mutex carry the lock-holder guard, mirroring
   that those statements run inside the critical section.

Tasks are identified by natural-number ids; at the dispatcher level a task
body is modelled by its outcome, normal return or a thrown value.
-/

namespace Asynctask

/-! Logger model (logger.hpp). -/

/-- Severity level of a log message (enum class Level). -/
inductive Level where
  | Debug
  | Info
  | Warning
  | Error
deriving DecidableEq

/-- Destination stream of a log line: std::cout or std::cerr. -/
inductive Stream where
  | stdout
  | stderr
deriving DecidableEq

/-- level_to_string from logger.hpp. -/
def level_to_string : Level → String
  | Level.Debug => "DEBUG"
  | Level.Info => "INFO"
  | Level.Warning => "WARNING"
  | Level.Error => "ERROR"

/-- One emitted log line: the stream it was written to, its level, the area
tag and the message text (timestamp padding and the thread id of the full
format are runtime environment data and are not modelled). -/
structure LogLine where
  stream : Stream
  level : Level
  area : String
  message : String
deriving DecidableEq

/-- The stream selected by log::print: std::cerr for Error, std::cout for
every other level (the conditional expression on line 54 of logger.hpp). -/
def streamFor (l : Level) : Stream :=
  if l = Level.Error then Stream.stderr else Stream.stdout

/-- log::print.  When the level is Debug and debug logging is disabled
(the if-constexpr early return), the call emits nothing; otherwise exactly
one line is written to the stream selected by the level. -/
def print (debugEnabled : Bool) (l : Level) (area message : String) :
    Option LogLine :=
  if l = Level.Debug ∧ debugEnabled = false then none
  else some { stream := streamFor l, level := l, area := area, message := message }

/-! Dispatcher model (fire_and_forget and the wrapped task). -/

/-- A value thrown by a task body: a std::exception carrying its what() text,
or any other thrown value (caught by the catch-all). -/
inductive CppExc where
  | stdExc (what : String)
  | other
deriving DecidableEq

/-- The list of lines actually emitted by a sequence of print calls. -/
def logsOf (xs : List (Option LogLine)) : List LogLine :=
  xs.filterMap id

/-- The wrapped unit built inside fire_and_forget.  The task body is modelled
by its outcome (work).  The try/catch of the C++ lambda becomes the match:
every branch ends normally, so the result is Except.ok carrying the log
lines the wrapped unit emitted; an Except.error result would model the
wrapped unit itself propagating an exception. -/
def wrapped_task (dbg : Bool) (name : String) (work : Except CppExc Unit) :
    Except CppExc (List LogLine) :=
  let startLine := print dbg Level.Info "TaskRunner" ("Starting task: " ++ name)
  match work with
  | Except.ok _ =>
      Except.ok (logsOf [startLine,
        print dbg Level.Info "TaskRunner" ("Finished task: " ++ name)])
  | Except.error (CppExc.stdExc w) =>
      Except.ok (logsOf [startLine,
        print dbg Level.Error "TaskRunner"
          ("Exception caught in task " ++ name ++ ": " ++ w)])
  | Except.error CppExc.other =>
      Except.ok (logsOf [startLine,
        print dbg Level.Error "TaskRunner"
          ("Unknown exception caught in task " ++ name)])

/-- Result of a fire_and_forget call: the global pool after the call (none
models a null global_thread_pool; some q models a pool whose queue holds the
pending wrapped tasks as name/body pairs) and the lines the call itself
logged. -/
structure FafResult where
  pool : Option (List (String × Except CppExc Unit))
  logs : List LogLine

/-- fire_and_forget.  If the global pool pointer is null it logs one Error
line and returns; otherwise it builds the wrapped task and enqueues it at
the tail of the pool queue.  The Except layer is the exception channel of
the call itself: Except.ok means the call returned normally. -/
def fire_and_forget (dbg : Bool)
    (pool : Option (List (String × Except CppExc Unit)))
    (name : String) (work : Except CppExc Unit) : Except CppExc FafResult :=
  match pool with
  | none =>
      Except.ok { pool := none,
                  logs := logsOf [print dbg Level.Error "TaskRunner"
                    "fire_and_forget called but thread pool is not available."] }
  | some q =>
      Except.ok { pool := some (q ++ [(name, work)]), logs := [] }

/-! ThreadPoolManager model. -/

/-- The thread count chosen by the ThreadPoolManager constructor:
std::thread::hardware_concurrency(), replaced by 2 when detection
returns 0. -/
def managerNumThreads (hardwareConcurrency : Nat) : Nat :=
  if hardwareConcurrency = 0 then 2 else hardwareConcurrency

/-! ThreadPool model: the worker loop as a transition system. -/

/-- Control point of one worker inside worker_loop.
loopTop: at the while(!stop_requested) test.
wantLock: past the while test, before acquiring the queue mutex.
waitCheck: holding the mutex, evaluating the condition-variable predicate.
blocked: parked in m_condition.wait with the mutex released.
afterWait: holding the mutex, predicate satisfied, at the stop-and-empty if.
popped t: holding the mutex, task t moved out of the queue head.
executing t: mutex released, invoking task t.
terminated: returned from worker_loop. -/
inductive WPhase where
  | loopTop
  | wantLock
  | waitCheck
  | blocked
  | afterWait
  | popped (t : Nat)
  | executing (t : Nat)
  | terminated
deriving DecidableEq

/-- An agent that can hold the queue mutex: a worker by index, or a client
thread inside ThreadPool::enqueue. -/
inductive Agent where
  | worker (i : Nat)
  | client
deriving DecidableEq

/-- One spawned worker: the id of the stop source its token came from, and
its control point (a freshly spawned worker is at the top of worker_loop). -/
structure Worker where
  sourceId : Nat
  phase : WPhase
deriving DecidableEq

/-- ThreadPool::start: the spawn loop creates one jthread per iteration,
each running worker_loop with a token obtained from the pool's single
m_stop_source. -/
def start (sourceId : Nat) (num_threads : Nat) : List Worker :=
  (List.range num_threads).map
    (fun _ => { sourceId := sourceId, phase := WPhase.loopTop })

/-- Global state of the pool model.  queue is m_tasks (front = head), stop
is whether m_stop_source.request_stop has run, lockHolder is the current
owner of m_queue_mutex, workers holds the control point of each worker,
clientPhase is some t while a client inside enqueue holds the mutex about
to push t.  enqueued and executed are history variables: every task id ever
pushed, and every task id ever popped for execution, in order. -/
structure PoolState where
  queue : List Nat
  stop : Bool
  lockHolder : Option Agent
  workers : List WPhase
  clientPhase : Option Nat
  enqueued : List Nat
  executed : List Nat
deriving DecidableEq

/-- State right after ThreadPool::ThreadPool(n) returns: n workers spawned
by start, all at the top of worker_loop; empty queue; stop not requested;
mutex free. -/
def initState (n : Nat) : PoolState :=
  { queue := []
    stop := false
    lockHolder := none
    workers := (start 0 n).map Worker.phase
    clientPhase := none
    enqueued := []
    executed := [] }

/-- A concrete pool state used to evaluate the model: one worker holds the
mutex just after the cv wait returned (afterWait), task 5 is at the queue
head, no stop requested. -/
def exampleAfterWaitState : PoolState :=
  { queue := [5]
    stop := false
    lockHolder := some (Agent.worker 0)
    workers := [WPhase.afterWait]
    clientPhase := none
    enqueued := [5]
    executed := [] }

/-- The state after the worker of exampleAfterWaitState pops task 5. -/
def examplePoppedState : PoolState :=
  { queue := []
    stop := false
    lockHolder := some (Agent.worker 0)
    workers := [WPhase.popped 5]
    clientPhase := none
    enqueued := [5]
    executed := [5] }

/-- Small-step transition relation of the pool.  Each constructor is one
program point:
requestStop: m_stop_source.request_stop() in the destructor.
loopExit / loopEnter: the while(!stoken.stop_requested()) test.
acquire: std::unique_lock lock(m_queue_mutex).
waitPass / waitSleep: the condition-variable predicate check, holding the
mutex (wait returns when the predicate holds, otherwise releases and parks).
wake: a parked worker reacquires the mutex after a notify (re-entering the
predicate check, as cv wait does).
exitEmpty: the stop-requested-and-empty return, releasing the mutex.
pop: m_tasks.front()/pop() under the mutex.
unlockRun: the scope end releasing the mutex before task().
finish: task() returned, back to the while test.
clientAcquire / clientPush: ThreadPool::enqueue, scoped_lock then emplace
then unlock. -/
inductive Step : PoolState → PoolState → Prop where
  | requestStop (s : PoolState) :
      Step s { s with stop := true }
  | loopExit (s : PoolState) (i : Nat) :
      s.workers[i]? = some WPhase.loopTop → s.stop = true →
      Step s { s with workers := s.workers.set i WPhase.terminated }
  | loopEnter (s : PoolState) (i : Nat) :
      s.workers[i]? = some WPhase.loopTop → s.stop = false →
      Step s { s with workers := s.workers.set i WPhase.wantLock }
  | acquire (s : PoolState) (i : Nat) :
      s.workers[i]? = some WPhase.wantLock → s.lockHolder = none →
      Step s { s with workers := s.workers.set i WPhase.waitCheck,
                      lockHolder := some (Agent.worker i) }
  | waitPass (s : PoolState) (i : Nat) :
      s.workers[i]? = some WPhase.waitCheck →
      s.lockHolder = some (Agent.worker i) →
      (s.stop = true ∨ s.queue ≠ []) →
      Step s { s with workers := s.workers.set i WPhase.afterWait }
  | waitSleep (s : PoolState) (i : Nat) :
      s.workers[i]? = some WPhase.waitCheck →
      s.lockHolder = some (Agent.worker i) →
      s.stop = false → s.queue = [] →
      Step s { s with workers := s.workers.set i WPhase.blocked,
                      lockHolder := none }
  | wake (s : PoolState) (i : Nat) :
      s.workers[i]? = some WPhase.blocked → s.lockHolder = none →
      Step s { s with workers := s.workers.set i WPhase.waitCheck,
                      lockHolder := some (Agent.worker i) }
  | exitEmpty (s : PoolState) (i : Nat) :
      s.workers[i]? = some WPhase.afterWait →
      s.lockHolder = some (Agent.worker i) →
      s.stop = true → s.queue = [] →
      Step s { s with workers := s.workers.set i WPhase.terminated,
                      lockHolder := none }
  | pop (s : PoolState) (i : Nat) (t : Nat) (rest : List Nat) :
      s.workers[i]? = some WPhase.afterWait →
      s.lockHolder = some (Agent.worker i) →
      s.queue = t :: rest →
      Step s { s with workers := s.workers.set i (WPhase.popped t),
                      queue := rest, executed := s.executed ++ [t] }
  | unlockRun (s : PoolState) (i : Nat) (t : Nat) :
      s.workers[i]? = some (WPhase.popped t) →
      s.lockHolder = some (Agent.worker i) →
      Step s { s with workers := s.workers.set i (WPhase.executing t),
                      lockHolder := none }
  | finish (s : PoolState) (i : Nat) (t : Nat) :
      s.workers[i]? = some (WPhase.executing t) →
      Step s { s with workers := s.workers.set i WPhase.loopTop }
  | clientAcquire (s : PoolState) (t : Nat) :
      s.clientPhase = none → s.lockHolder = none →
      Step s { s with clientPhase := some t,
                      lockHolder := some Agent.client }
  | clientPush (s : PoolState) (t : Nat) :
      s.clientPhase = some t → s.lockHolder = some Agent.client →
      Step s { s with queue := s.queue ++ [t], enqueued := s.enqueued ++ [t],
                      clientPhase := none, lockHolder := none }

/-- Reachability from the freshly constructed pool of n workers. -/
def Reachable (n : Nat) (s : PoolState) : Prop :=
  Relation.ReflTransGen Step (initState n) s

/-- Phases at which a worker owns the queue mutex: from the return of the
cv wait through the pop, until the critical-section scope ends. -/
def lockedPhase : WPhase → Bool
  | WPhase.waitCheck => true
  | WPhase.afterWait => true
  | WPhase.popped _ => true
  | _ => false

/-- The inductive invariant of the pool model. -/
structure Inv (n : Nat) (s : PoolState) : Prop where
  count : s.workers.length = n
  fifo : s.executed ++ s.queue = s.enqueued
  termStop : ∀ i : Nat, s.workers[i]? = some WPhase.terminated → s.stop = true
  holderWorker : ∀ i : Nat, s.lockHolder = some (Agent.worker i) →
    ∃ p, s.workers[i]? = some p ∧ lockedPhase p = true
  workerHolder : ∀ (i : Nat) (p : WPhase), s.workers[i]? = some p →
    lockedPhase p = true → s.lockHolder = some (Agent.worker i)
  holderClient : s.lockHolder = some Agent.client ↔ s.clientPhase.isSome = true

/-! Helper lemmas. -/

theorem lookup_lt {l : List WPhase} {i : Nat} {q : WPhase}
    (h : l[i]? = some q) : i < l.length :=
  (List.getElem?_eq_some.mp h).1

theorem set_self_lookup {l : List WPhase} {i : Nat} {q : WPhase} (p : WPhase)
    (h : l[i]? = some q) : (l.set i p)[i]? = some p :=
  List.getElem?_set_eq_of_lt p (lookup_lt h)

theorem set_lookup_cases {l : List WPhase} {i j : Nat} {p q : WPhase}
    (h : (l.set i p)[j]? = some q) :
    (i = j ∧ p = q) ∨ (i ≠ j ∧ l[j]? = some q) := by
  by_cases hij : i = j
  · subst hij
    have hlen : i < l.length := by
      have h2 := lookup_lt h
      simpa [List.length_set] using h2
    have h3 : (l.set i p)[i]? = some p := List.getElem?_set_eq_of_lt p hlen
    rw [h3] at h
    exact Or.inl ⟨rfl, Option.some.inj h⟩
  · refine Or.inr ⟨hij, ?_⟩
    rwa [List.getElem?_set_ne hij] at h

theorem initState_workers (n : Nat) :
    (initState n).workers = List.replicate n WPhase.loopTop := by
  simp [initState, start, List.map_map, Function.comp_def]

theorem inv_init (n : Nat) : Inv n (initState n) := by
  refine ⟨?_, rfl, ?_, ?_, ?_, ?_⟩
  · simp [initState, start]
  · intro i h
    rw [initState_workers, List.getElem?_replicate] at h
    split at h
    · cases Option.some.inj h
    · cases h
  · intro i h
    simp [initState] at h
  · intro i p hp hlp
    rw [initState_workers, List.getElem?_replicate] at hp
    split at hp
    · rw [← Option.some.inj hp] at hlp
      simp [lockedPhase] at hlp
    · cases hp
  · simp [initState]

theorem inv_step {n : Nat} {s s2 : PoolState} (hs : Inv n s) (hst : Step s s2) :
    Inv n s2 := by
  obtain ⟨hc, hf, ht, hhw, hwh, hhc⟩ := hs
  cases hst with
  | requestStop =>
      exact ⟨hc, hf, fun i _ => rfl, hhw, hwh, hhc⟩
  | loopExit i hw hstop =>
      refine ⟨by simpa using hc, hf, ?_, ?_, ?_, hhc⟩
      · intro j hj
        exact hstop
      · intro j hj
        obtain ⟨p, hp, hlp⟩ := hhw j hj
        by_cases hij : i = j
        · subst hij
          rw [hw] at hp
          rw [← Option.some.inj hp] at hlp
          simp [lockedPhase] at hlp
        · exact ⟨p, by rw [List.getElem?_set_ne hij]; exact hp, hlp⟩
      · intro j p hp hlp
        rcases set_lookup_cases hp with ⟨hij, hX⟩ | ⟨hij, hl⟩
        · rw [← hX] at hlp
          simp [lockedPhase] at hlp
        · exact hwh j p hl hlp
  | loopEnter i hw hstop =>
      refine ⟨by simpa using hc, hf, ?_, ?_, ?_, hhc⟩
      · intro j hj
        rcases set_lookup_cases hj with ⟨hij, hX⟩ | ⟨hij, hl⟩
        · cases hX
        · exact ht j hl
      · intro j hj
        obtain ⟨p, hp, hlp⟩ := hhw j hj
        by_cases hij : i = j
        · subst hij
          rw [hw] at hp
          rw [← Option.some.inj hp] at hlp
          simp [lockedPhase] at hlp
        · exact ⟨p, by rw [List.getElem?_set_ne hij]; exact hp, hlp⟩
      · intro j p hp hlp
        rcases set_lookup_cases hp with ⟨hij, hX⟩ | ⟨hij, hl⟩
        · rw [← hX] at hlp
          simp [lockedPhase] at hlp
        · exact hwh j p hl hlp
  | acquire i hw hlk =>
      refine ⟨by simpa using hc, hf, ?_, ?_, ?_, ?_⟩
      · intro j hj
        rcases set_lookup_cases hj with ⟨hij, hX⟩ | ⟨hij, hl⟩
        · cases hX
        · exact ht j hl
      · intro j hj
        cases Option.some.inj hj
        exact ⟨WPhase.waitCheck, set_self_lookup _ hw, rfl⟩
      · intro j p hp hlp
        rcases set_lookup_cases hp with ⟨hij, hX⟩ | ⟨hij, hl⟩
        · rw [hij]
        · exact absurd (hwh j p hl hlp) (by rw [hlk]; intro h2; cases h2)
      · constructor
        · intro h2
          cases Option.some.inj h2
        · intro h2
          have h3 := hhc.mpr h2
          rw [hlk] at h3
          cases h3
  | waitPass i hw hlk hpred =>
      refine ⟨by simpa using hc, hf, ?_, ?_, ?_, hhc⟩
      · intro j hj
        rcases set_lookup_cases hj with ⟨hij, hX⟩ | ⟨hij, hl⟩
        · cases hX
        · exact ht j hl
      · intro j hj
        rw [hlk] at hj
        cases Option.some.inj hj
        exact ⟨WPhase.afterWait, set_self_lookup _ hw, rfl⟩
      · intro j p hp hlp
        rcases set_lookup_cases hp with ⟨hij, hX⟩ | ⟨hij, hl⟩
        · rw [← hij]
          exact hlk
        · have h2 := hwh j p hl hlp
          rw [hlk] at h2
          cases Option.some.inj h2
          exact absurd rfl hij
  | waitSleep i hw hlk hstop hq =>
      refine ⟨by simpa using hc, hf, ?_, ?_, ?_, ?_⟩
      · intro j hj
        rcases set_lookup_cases hj with ⟨hij, hX⟩ | ⟨hij, hl⟩
        · cases hX
        · exact ht j hl
      · intro j hj
        cases hj
      · intro j p hp hlp
        rcases set_lookup_cases hp with ⟨hij, hX⟩ | ⟨hij, hl⟩
        · rw [← hX] at hlp
          simp [lockedPhase] at hlp
        · have h2 := hwh j p hl hlp
          rw [hlk] at h2
          cases Option.some.inj h2
          exact absurd rfl hij
      · constructor
        · intro h2
          cases h2
        · intro h2
          have h3 := hhc.mpr h2
          rw [hlk] at h3
          cases Option.some.inj h3
  | wake i hw hlk =>
      refine ⟨by simpa using hc, hf, ?_, ?_, ?_, ?_⟩
      · intro j hj
        rcases set_lookup_cases hj with ⟨hij, hX⟩ | ⟨hij, hl⟩
        · cases hX
        · exact ht j hl
      · intro j hj
        cases Option.some.inj hj
        exact ⟨WPhase.waitCheck, set_self_lookup _ hw, rfl⟩
      · intro j p hp hlp
        rcases set_lookup_cases hp with ⟨hij, hX⟩ | ⟨hij, hl⟩
        · rw [hij]
        · exact absurd (hwh j p hl hlp) (by rw [hlk]; intro h2; cases h2)
      · constructor
        · intro h2
          cases Option.some.inj h2
        · intro h2
          have h3 := hhc.mpr h2
          rw [hlk] at h3
          cases h3
  | exitEmpty i hw hlk hstop hq =>
      refine ⟨by simpa using hc, hf, ?_, ?_, ?_, ?_⟩
      · intro j hj
        rcases set_lookup_cases hj with ⟨hij, hX⟩ | ⟨hij, hl⟩
        · exact hstop
        · exact ht j hl
      · intro j hj
        cases hj
      · intro j p hp hlp
        rcases set_lookup_cases hp with ⟨hij, hX⟩ | ⟨hij, hl⟩
        · rw [← hX] at hlp
          simp [lockedPhase] at hlp
        · have h2 := hwh j p hl hlp
          rw [hlk] at h2
          cases Option.some.inj h2
          exact absurd rfl hij
      · constructor
        · intro h2
          cases h2
        · intro h2
          have h3 := hhc.mpr h2
          rw [hlk] at h3
          cases Option.some.inj h3
  | pop i t rest hw hlk hq =>
      refine ⟨by simpa using hc, ?_, ?_, ?_, ?_, hhc⟩
      · rw [hq] at hf
        rw [List.append_assoc]
        simpa using hf
      · intro j hj
        rcases set_lookup_cases hj with ⟨hij, hX⟩ | ⟨hij, hl⟩
        · cases hX
        · exact ht j hl
      · intro j hj
        rw [hlk] at hj
        cases Option.some.inj hj
        exact ⟨WPhase.popped t, set_self_lookup _ hw, rfl⟩
      · intro j p hp hlp
        rcases set_lookup_cases hp with ⟨hij, hX⟩ | ⟨hij, hl⟩
        · rw [← hij]
          exact hlk
        · have h2 := hwh j p hl hlp
          rw [hlk] at h2
          cases Option.some.inj h2
          exact absurd rfl hij
  | unlockRun i t hw hlk =>
      refine ⟨by simpa using hc, hf, ?_, ?_, ?_, ?_⟩
      · intro j hj
        rcases set_lookup_cases hj with ⟨hij, hX⟩ | ⟨hij, hl⟩
        · cases hX
        · exact ht j hl
      · intro j hj
        cases hj
      · intro j p hp hlp
        rcases set_lookup_cases hp with ⟨hij, hX⟩ | ⟨hij, hl⟩
        · rw [← hX] at hlp
          simp [lockedPhase] at hlp
        · have h2 := hwh j p hl hlp
          rw [hlk] at h2
          cases Option.some.inj h2
          exact absurd rfl hij
      · constructor
        · intro h2
          cases h2
        · intro h2
          have h3 := hhc.mpr h2
          rw [hlk] at h3
          cases Option.some.inj h3
  | finish i t hw =>
      refine ⟨by simpa using hc, hf, ?_, ?_, ?_, hhc⟩
      · intro j hj
        rcases set_lookup_cases hj with ⟨hij, hX⟩ | ⟨hij, hl⟩
        · cases hX
        · exact ht j hl
      · intro j hj
        obtain ⟨p, hp, hlp⟩ := hhw j hj
        by_cases hij : i = j
        · subst hij
          rw [hw] at hp
          rw [← Option.some.inj hp] at hlp
          simp [lockedPhase] at hlp
        · exact ⟨p, by rw [List.getElem?_set_ne hij]; exact hp, hlp⟩
      · intro j p hp hlp
        rcases set_lookup_cases hp with ⟨hij, hX⟩ | ⟨hij, hl⟩
        · rw [← hX] at hlp
          simp [lockedPhase] at hlp
        · exact hwh j p hl hlp
  | clientAcquire t hcp hlk =>
      refine ⟨hc, hf, ht, ?_, ?_, ?_⟩
      · intro j hj
        cases Option.some.inj hj
      · intro j p hp hlp
        exact absurd (hwh j p hp hlp) (by rw [hlk]; intro h2; cases h2)
      · simp
  | clientPush t hcp hlk =>
      refine ⟨hc, ?_, ht, ?_, ?_, ?_⟩
      · rw [← List.append_assoc, hf]
      · intro j hj
        cases hj
      · intro j p hp hlp
        have h2 := hwh j p hp hlp
        rw [hlk] at h2
        cases Option.some.inj h2
      · simp

theorem inv_reachable {n : Nat} {s : PoolState} (h : Reachable n s) : Inv n s := by
  induction h with
  | refl => exact inv_init n
  | tail h1 h2 ih => exact inv_step ih h2

/-- C1: the claim states that a worker never terminates while the task queue
is non-empty, so that graceful shutdown drains the queue.  The code violates
this: the outer while(!stoken.stop_requested()) test of worker_loop lets a
worker return while tasks are still queued.  Witnessed here: in a one-worker
pool, a client enqueues task 7 and stop is requested before the worker first
evaluates the while condition; the worker terminates, so the destructor's
join (and with it shutdown) completes, yet task 7 is still in the queue and
was never dequeued or executed. -/
theorem shutdown_leaves_task_unexecuted :
    ∃ s : PoolState, Reachable 1 s ∧ s.stop = true ∧
      (∀ p ∈ s.workers, p = WPhase.terminated) ∧
      s.queue = [7] ∧ s.enqueued = [7] ∧ s.executed = [] := by
  refine ⟨{ queue := [7], stop := true, lockHolder := none,
            workers := [WPhase.terminated], clientPhase := none,
            enqueued := [7], executed := [] }, ?_, rfl, ?_, rfl, rfl, rfl⟩
  · apply Relation.ReflTransGen.head (Step.clientAcquire (initState 1) 7 rfl rfl)
    apply Relation.ReflTransGen.head
      (Step.clientPush
        { queue := [], stop := false, lockHolder := some Agent.client,
          workers := [WPhase.loopTop], clientPhase := some 7,
          enqueued := [], executed := [] } 7 rfl rfl)
    apply Relation.ReflTransGen.head
      (Step.requestStop
        { queue := [7], stop := false, lockHolder := none,
          workers := [WPhase.loopTop], clientPhase := none,
          enqueued := [7], executed := [] })
    apply Relation.ReflTransGen.head
      (Step.loopExit
        { queue := [7], stop := true, lockHolder := none,
          workers := [WPhase.loopTop], clientPhase := none,
          enqueued := [7], executed := [] } 0 rfl rfl)
    exact Relation.ReflTransGen.refl
  · intro p hp
    simp at hp
    exact hp

/-- C2: no task loss or duplication.  In every reachable state the sequence
of tasks popped for execution followed by the tasks still queued is exactly
the sequence of tasks ever enqueued (so each enqueued task is dequeued at
most once, never re-enqueued, and none is dropped); once the queue is
drained, the executed sequence equals the enqueued sequence (N submissions
give exactly N executions); and while no shutdown is in progress no worker
has terminated, so draining continues. -/
theorem no_task_lost_or_duplicated {n : Nat} {s : PoolState}
    (h : Reachable n s) :
    s.executed ++ s.queue = s.enqueued ∧
      (s.queue = [] → s.executed = s.enqueued) ∧
      (s.stop = false →
        ∀ i : Nat, s.workers[i]? ≠ some WPhase.terminated) := by
  have hi := inv_reachable h
  refine ⟨hi.fifo, ?_, ?_⟩
  · intro hq
    have h2 := hi.fifo
    rw [hq] at h2
    simpa using h2
  · intro hstop i hterm
    have h2 := hi.termStop i hterm
    rw [hstop] at h2
    cases h2

theorem no_task_lost_or_duplicated_witness :
    (initState 2).executed ++ (initState 2).queue = (initState 2).enqueued ∧
      ((initState 2).queue = [] → (initState 2).executed = (initState 2).enqueued) ∧
      ((initState 2).stop = false →
        ∀ i : Nat, (initState 2).workers[i]? ≠ some WPhase.terminated) :=
  no_task_lost_or_duplicated Relation.ReflTransGen.refl

/-- C5: strict FIFO.  In every reachable state the tasks popped for
execution are exactly the first insertions in insertion order (submit
appends at the tail, workers pop the head), and the queue holds precisely
the remaining insertions in order: the dequeue (execution-start) order
equals the queue-insertion order. -/
theorem fifo_execution_order {n : Nat} {s : PoolState} (h : Reachable n s) :
    s.executed = s.enqueued.take s.executed.length ∧
      s.queue = s.enqueued.drop s.executed.length := by
  have hf := (inv_reachable h).fifo
  constructor
  · rw [← hf, List.take_left]
  · rw [← hf, List.drop_left]

theorem fifo_execution_order_witness :
    (initState 1).executed =
        (initState 1).enqueued.take (initState 1).executed.length ∧
      (initState 1).queue =
        (initState 1).enqueued.drop (initState 1).executed.length :=
  fifo_execution_order Relation.ReflTransGen.refl

/-- C7: the queue mutex is never held across caller-supplied code.  In every
reachable state, whoever holds the lock is inside a push critical section
(a client between scoped_lock and the emplace) or inside a pop critical
section (a worker between the cv wait returning and the unique_lock scope
end); in particular a worker that is invoking a dequeued task never holds
the lock. -/
theorem lock_not_held_during_task {n : Nat} {s : PoolState}
    (h : Reachable n s) :
    (∀ a : Agent, s.lockHolder = some a →
      (a = Agent.client ∧ s.clientPhase.isSome = true) ∨
      ∃ i p, a = Agent.worker i ∧ s.workers[i]? = some p ∧
        lockedPhase p = true) ∧
    (∀ i t : Nat, s.workers[i]? = some (WPhase.executing t) →
      s.lockHolder ≠ some (Agent.worker i)) := by
  have hi := inv_reachable h
  constructor
  · intro a ha
    cases a with
    | client => exact Or.inl ⟨rfl, hi.holderClient.mp ha⟩
    | worker i =>
        obtain ⟨p, hp, hlp⟩ := hi.holderWorker i ha
        exact Or.inr ⟨i, p, rfl, hp, hlp⟩
  · intro i t hex hlk
    obtain ⟨p, hp, hlp⟩ := hi.holderWorker i hlk
    rw [hex] at hp
    rw [← Option.some.inj hp] at hlp
    simp [lockedPhase] at hlp

/-- C6: behaviour of a woken worker.  Any step that moves a worker past the
point where the cv wait returned (afterWait) is either the return under
stop-requested with an empty queue — terminating without dequeuing or
executing anything — or, otherwise, the pop of exactly the head task, which
the worker then goes on to execute (the only step out of the popped phase
starts executing that same task). -/
theorem wake_decision {s s2 : PoolState} {i : Nat}
    (hstep : Step s s2)
    (hw : s.workers[i]? = some WPhase.afterWait ∨
      ∃ t : Nat, s.workers[i]? = some (WPhase.popped t))
    (hmove : s.workers[i]? ≠ s2.workers[i]?) :
    (s.workers[i]? = some WPhase.afterWait ∧ s.stop = true ∧ s.queue = [] ∧
      s2.workers[i]? = some WPhase.terminated ∧ s2.queue = s.queue ∧
      s2.executed = s.executed) ∨
    (∃ t rest, s.workers[i]? = some WPhase.afterWait ∧ s.queue = t :: rest ∧
      s2.workers[i]? = some (WPhase.popped t) ∧ s2.queue = rest ∧
      s2.executed = s.executed ++ [t]) ∨
    (∃ t : Nat, s.workers[i]? = some (WPhase.popped t) ∧
      s2.workers[i]? = some (WPhase.executing t) ∧ s2.queue = s.queue ∧
      s2.executed = s.executed) := by
  cases hstep with
  | requestStop => exact absurd rfl hmove
  | clientAcquire t hcp hlk => exact absurd rfl hmove
  | clientPush t hcp hlk => exact absurd rfl hmove
  | loopExit j hwj hstop =>
      by_cases hij : j = i
      · subst hij
        rcases hw with hA | ⟨u, hP⟩
        · rw [hwj] at hA
          simp at hA
        · rw [hwj] at hP
          simp at hP
      · exact absurd (List.getElem?_set_ne hij).symm hmove
  | loopEnter j hwj hstop =>
      by_cases hij : j = i
      · subst hij
        rcases hw with hA | ⟨u, hP⟩
        · rw [hwj] at hA
          simp at hA
        · rw [hwj] at hP
          simp at hP
      · exact absurd (List.getElem?_set_ne hij).symm hmove
  | acquire j hwj hlk =>
      by_cases hij : j = i
      · subst hij
        rcases hw with hA | ⟨u, hP⟩
        · rw [hwj] at hA
          simp at hA
        · rw [hwj] at hP
          simp at hP
      · exact absurd (List.getElem?_set_ne hij).symm hmove
  | waitPass j hwj hlk hpred =>
      by_cases hij : j = i
      · subst hij
        rcases hw with hA | ⟨u, hP⟩
        · rw [hwj] at hA
          simp at hA
        · rw [hwj] at hP
          simp at hP
      · exact absurd (List.getElem?_set_ne hij).symm hmove
  | waitSleep j hwj hlk hstop hq =>
      by_cases hij : j = i
      · subst hij
        rcases hw with hA | ⟨u, hP⟩
        · rw [hwj] at hA
          simp at hA
        · rw [hwj] at hP
          simp at hP
      · exact absurd (List.getElem?_set_ne hij).symm hmove
  | wake j hwj hlk =>
      by_cases hij : j = i
      · subst hij
        rcases hw with hA | ⟨u, hP⟩
        · rw [hwj] at hA
          simp at hA
        · rw [hwj] at hP
          simp at hP
      · exact absurd (List.getElem?_set_ne hij).symm hmove
  | finish j t hwj =>
      by_cases hij : j = i
      · subst hij
        rcases hw with hA | ⟨u, hP⟩
        · rw [hwj] at hA
          simp at hA
        · rw [hwj] at hP
          simp at hP
      · exact absurd (List.getElem?_set_ne hij).symm hmove
  | exitEmpty j hwj hlk hstop hq =>
      by_cases hij : j = i
      · subst hij
        exact Or.inl ⟨hwj, hstop, hq, set_self_lookup _ hwj, rfl, rfl⟩
      · exact absurd (List.getElem?_set_ne hij).symm hmove
  | pop j t rest hwj hlk hq =>
      by_cases hij : j = i
      · subst hij
        exact Or.inr (Or.inl ⟨t, rest, hwj, hq, set_self_lookup _ hwj, rfl, rfl⟩)
      · exact absurd (List.getElem?_set_ne hij).symm hmove
  | unlockRun j t hwj hlk =>
      by_cases hij : j = i
      · subst hij
        exact Or.inr (Or.inr ⟨t, hwj, set_self_lookup _ hwj, rfl, rfl⟩)
      · exact absurd (List.getElem?_set_ne hij).symm hmove

theorem wake_decision_witness :
    (exampleAfterWaitState.workers[0]? = some WPhase.afterWait ∧
      exampleAfterWaitState.stop = true ∧ exampleAfterWaitState.queue = [] ∧
      examplePoppedState.workers[0]? = some WPhase.terminated ∧
      examplePoppedState.queue = exampleAfterWaitState.queue ∧
      examplePoppedState.executed = exampleAfterWaitState.executed) ∨
    (∃ t rest, exampleAfterWaitState.workers[0]? = some WPhase.afterWait ∧
      exampleAfterWaitState.queue = t :: rest ∧
      examplePoppedState.workers[0]? = some (WPhase.popped t) ∧
      examplePoppedState.queue = rest ∧
      examplePoppedState.executed = exampleAfterWaitState.executed ++ [t]) ∨
    (∃ t : Nat, exampleAfterWaitState.workers[0]? = some (WPhase.popped t) ∧
      examplePoppedState.workers[0]? = some (WPhase.executing t) ∧
      examplePoppedState.queue = exampleAfterWaitState.queue ∧
      examplePoppedState.executed = exampleAfterWaitState.executed) :=
  wake_decision (Step.pop exampleAfterWaitState 0 5 [] rfl rfl rfl)
    (Or.inl rfl) (by decide)

theorem lock_not_held_during_task_witness :
    (∀ a : Agent, (initState 1).lockHolder = some a →
      (a = Agent.client ∧ (initState 1).clientPhase.isSome = true) ∨
      ∃ i p, a = Agent.worker i ∧ (initState 1).workers[i]? = some p ∧
        lockedPhase p = true) ∧
    (∀ i t : Nat, (initState 1).workers[i]? = some (WPhase.executing t) →
      (initState 1).lockHolder ≠ some (Agent.worker i)) :=
  lock_not_held_during_task Relation.ReflTransGen.refl

/-- C3: total exception containment in the wrapped unit.  For every task
body, wrapped_task returns normally (Except.ok, never rethrowing, so the
worker loop is never terminated by a task failure); when the body throws a
std::exception an Error line with the task name and the what() description
is logged, and when it throws anything else an Error line reporting an
unknown exception for that task name is logged. -/
theorem task_exceptions_contained (dbg : Bool) (name : String)
    (work : Except CppExc Unit) :
    ∃ logs : List LogLine, wrapped_task dbg name work = Except.ok logs ∧
      (∀ w : String, work = Except.error (CppExc.stdExc w) →
        { stream := Stream.stderr, level := Level.Error, area := "TaskRunner",
          message := "Exception caught in task " ++ name ++ ": " ++ w } ∈ logs) ∧
      (work = Except.error CppExc.other →
        { stream := Stream.stderr, level := Level.Error, area := "TaskRunner",
          message := "Unknown exception caught in task " ++ name } ∈ logs) := by
  cases work with
  | ok u =>
      refine ⟨_, rfl, ?_, ?_⟩
      · intro w hw
        cases hw
      · intro hw
        cases hw
  | error e =>
      cases e with
      | stdExc w =>
          refine ⟨_, rfl, ?_, ?_⟩
          · intro w2 hw
            injection hw with h2
            injection h2 with h3
            subst h3
            simp [logsOf, print, streamFor]
          · intro hw
            injection hw with h2
            cases h2
      | other =>
          refine ⟨_, rfl, ?_, ?_⟩
          · intro w2 hw
            injection hw with h2
            cases h2
          · intro hw
            simp [logsOf, print, streamFor]

theorem task_exceptions_contained_witness :
    ∃ logs : List LogLine,
      wrapped_task false "t" (Except.error (CppExc.stdExc "boom")) =
        Except.ok logs ∧
      (∀ w : String,
        (Except.error (CppExc.stdExc "boom") : Except CppExc Unit) =
          Except.error (CppExc.stdExc w) →
        { stream := Stream.stderr, level := Level.Error, area := "TaskRunner",
          message := "Exception caught in task " ++ "t" ++ ": " ++ w } ∈ logs) ∧
      ((Except.error (CppExc.stdExc "boom") : Except CppExc Unit) =
          Except.error CppExc.other →
        { stream := Stream.stderr, level := Level.Error, area := "TaskRunner",
          message := "Unknown exception caught in task " ++ "t" } ∈ logs) :=
  task_exceptions_contained false "t" (Except.error (CppExc.stdExc "boom"))

/-- C4: dropping a request while the pool is unavailable.  When the global
pool pointer is null, fire_and_forget returns normally (Except.ok: it does
not throw), logs exactly one Error line, and leaves the pool unchanged at
none — in particular the callable is never enqueued, so it is executed
neither asynchronously nor inline (none of the wrapped-task lines are ever
emitted). -/
theorem unavailable_pool_drops_task (dbg : Bool) (name : String)
    (work : Except CppExc Unit) :
    fire_and_forget dbg none name work =
      Except.ok
        { pool := none,
          logs := [{ stream := Stream.stderr, level := Level.Error,
                     area := "TaskRunner",
                     message := "fire_and_forget called but thread pool is not available." }] } :=
  rfl

/-- C8: the automatically constructed pool uses the detected hardware
parallelism as its thread count, except that a detection result of 0 is
replaced by 2; in that case the count is exactly 2, and the count is never
zero, so construction never fails on a zero thread count. -/
theorem manager_thread_count (hw : Nat) :
    (hw ≠ 0 → managerNumThreads hw = hw) ∧
    (hw = 0 → managerNumThreads hw = 2) ∧
    0 < managerNumThreads hw := by
  refine ⟨?_, ?_, ?_⟩
  · intro h
    exact if_neg h
  · intro h
    subst h
    rfl
  · by_cases h : hw = 0
    · subst h
      decide
    · unfold managerNumThreads
      rw [if_neg h]
      exact Nat.pos_of_ne_zero h

theorem manager_thread_count_witness :
    managerNumThreads 0 = 2 ∧ 0 < managerNumThreads 0 :=
  ⟨(manager_thread_count 0).2.1 rfl, (manager_thread_count 0).2.2⟩

/-- C9: ThreadPool::start spawns exactly n workers.  For every positive n,
the workers container built by start has cardinality n, and every spawned
worker runs the worker loop from its entry point with a stop token drawn
from the pool's shared stop source. -/
theorem start_spawns_workers (sourceId n : Nat) (h : 0 < n) :
    (start sourceId n).length = n ∧
    ∀ w ∈ start sourceId n,
      w.sourceId = sourceId ∧ w.phase = WPhase.loopTop := by
  constructor
  · simp [start]
  · intro w hwm
    rcases List.mem_map.mp hwm with ⟨i, hi, hw2⟩
    rw [← hw2]
    exact ⟨rfl, rfl⟩

theorem start_spawns_workers_witness :
    (start 0 3).length = 3 ∧
    ∀ w ∈ start 0 3, w.sourceId = 0 ∧ w.phase = WPhase.loopTop :=
  start_spawns_workers 0 3 (by decide)

/-- C10, counterexample to the claim as stated: with debug logging disabled
(the default build), a Debug-level call to log::print writes nothing at
all — in particular nothing to standard output — because of the early
return, so it is not the case that every Debug call is written to
standard output. -/
theorem debug_call_emits_nothing :
    print false Level.Debug "Debug" "detailed message" = none :=
  rfl

/-- C10, amended: whenever log::print emits a line, the severity level alone
determines the destination stream — standard error exactly for Error-level
messages, standard output for Debug, Info and Warning — and a call emits
nothing precisely when its level is Debug and debug logging is disabled at
build time. -/
theorem stream_selected_by_level (dbg : Bool) (l : Level)
    (area msg : String) :
    (∀ line : LogLine, print dbg l area msg = some line →
      (line.stream = Stream.stderr ↔ l = Level.Error) ∧ line.level = l) ∧
    (print dbg l area msg = none ↔ (l = Level.Debug ∧ dbg = false)) := by
  constructor
  · intro line hline
    by_cases hl : l = Level.Debug ∧ dbg = false
    · rw [print, if_pos hl] at hline
      cases hline
    · rw [print, if_neg hl] at hline
      rw [← Option.some.inj hline]
      refine ⟨?_, rfl⟩
      by_cases he : l = Level.Error
      · simp [streamFor, he]
      · simp [streamFor, he]
  · constructor
    · intro h2
      by_cases hl : l = Level.Debug ∧ dbg = false
      · exact hl
      · rw [print, if_neg hl] at h2
        cases h2
    · intro h2
      rw [print, if_pos h2]

theorem stream_selected_by_level_witness :
    (∀ line : LogLine, print true Level.Error "x" "m" = some line →
      (line.stream = Stream.stderr ↔ Level.Error = Level.Error) ∧
        line.level = Level.Error) ∧
    (print true Level.Error "x" "m" = none ↔
      (Level.Error = Level.Debug ∧ true = false)) :=
  stream_selected_by_level true Level.Error "x" "m"

end Asynctask
